import Mathlib

/-!
# Verification of the K-means blob dataset generator

Shallow embedding of the repository's dataset-generation script
(`K-means dataset generator.py`): the hardcoded configuration constants,
the `make_blobs` call, the coordinate-formatting and file-writing loop,
the plot steps, and the output paths.  Files are modelled as `List Char`;
coordinates as exact rationals.
-/

namespace KMeansGen

/-! ## Decimal digit rendering (model of Python's integer-to-decimal digits) -/

/-- The decimal digit character for `d % 10`. -/
def digitChar (d : Nat) : Char := Char.ofNat (48 + d % 10)

/-- Decimal digits, most significant first; structural recursion on a
fuel bound so that the definition evaluates inside the kernel. -/
def natDigitsAux : Nat → Nat → List Char
  | 0, _ => []
  | fuel + 1, n =>
    if n < 10 then [digitChar n]
    else natDigitsAux fuel (n / 10) ++ [digitChar (n % 10)]

/-- Decimal digits of a natural number, most significant first. -/
def natDigits (n : Nat) : List Char := natDigitsAux (n + 1) n

/-- Numeric value of a digit character. -/
def digitVal (c : Char) : Nat := c.toNat - 48

/-- Numeric value of a most-significant-first digit string. -/
def natOfDigits (ds : List Char) : Nat :=
  ds.foldl (fun a c => 10 * a + digitVal c) 0

theorem digitChar_toNat (d : Nat) : (digitChar d).toNat = 48 + d % 10 := by
  have h : d % 10 < 10 := Nat.mod_lt _ (by omega)
  unfold digitChar
  generalize hm : d % 10 = m at *
  interval_cases m <;> decide

theorem digitVal_digitChar (d : Nat) : digitVal (digitChar d) = d % 10 := by
  unfold digitVal
  rw [digitChar_toNat]
  omega

theorem digitChar_isDigit (d : Nat) : (digitChar d).isDigit = true := by
  have h : d % 10 < 10 := Nat.mod_lt _ (by omega)
  unfold digitChar
  generalize hm : d % 10 = m at *
  interval_cases m <;> decide

theorem digitChar_ne_comma (d : Nat) : digitChar d ≠ ',' := by
  intro h
  have := congrArg Char.toNat h
  rw [digitChar_toNat] at this
  simp only [show (',').toNat = 44 from rfl] at this
  omega

theorem digitChar_ne_newline (d : Nat) : digitChar d ≠ '\n' := by
  intro h
  have := congrArg Char.toNat h
  rw [digitChar_toNat] at this
  simp only [show ('\n').toNat = 10 from rfl] at this
  omega

theorem digitChar_ne_dot (d : Nat) : digitChar d ≠ '.' := by
  intro h
  have := congrArg Char.toNat h
  rw [digitChar_toNat] at this
  simp only [show ('.').toNat = 46 from rfl] at this
  omega

theorem digitChar_ne_minus (d : Nat) : digitChar d ≠ '-' := by
  intro h
  have := congrArg Char.toNat h
  rw [digitChar_toNat] at this
  simp only [show ('-').toNat = 45 from rfl] at this
  omega

theorem natDigits_ne_nil (n : Nat) : natDigits n ≠ [] := by
  rw [natDigits, natDigitsAux]
  split <;> simp

theorem mem_natDigitsAux (fuel n : Nat) (c : Char) (hc : c ∈ natDigitsAux fuel n) :
    ∃ d, c = digitChar d := by
  induction fuel generalizing n with
  | zero => simp [natDigitsAux] at hc
  | succ fuel ih =>
    rw [natDigitsAux] at hc
    split at hc
    · simp at hc
      exact ⟨n, hc⟩
    · rw [List.mem_append] at hc
      rcases hc with hc | hc
      · exact ih (n / 10) hc
      · simp at hc
        exact ⟨n % 10, hc⟩

theorem mem_natDigits (n : Nat) (c : Char) (hc : c ∈ natDigits n) :
    ∃ d, c = digitChar d :=
  mem_natDigitsAux (n + 1) n c hc

theorem natOfDigits_foldl (a : Nat) (ds : List Char) :
    ds.foldl (fun a c => 10 * a + digitVal c) a =
      a * 10 ^ ds.length + natOfDigits ds := by
  induction ds generalizing a with
  | nil => simp [natOfDigits]
  | cons c cs ih =>
    simp only [List.foldl_cons, natOfDigits, List.length_cons]
    rw [ih (10 * a + digitVal c), ih (10 * 0 + digitVal c)]
    ring

theorem natOfDigits_append (ds es : List Char) :
    natOfDigits (ds ++ es) = natOfDigits ds * 10 ^ es.length + natOfDigits es := by
  unfold natOfDigits
  rw [List.foldl_append]
  exact natOfDigits_foldl _ es

theorem natOfDigits_natDigitsAux (fuel n : Nat) (hn : n < fuel) :
    natOfDigits (natDigitsAux fuel n) = n := by
  induction fuel generalizing n with
  | zero => omega
  | succ fuel ih =>
    rw [natDigitsAux]
    split
    · simp [natOfDigits, digitVal_digitChar]
      omega
    · rename_i h
      have hdiv : n / 10 < fuel := by
        have := Nat.div_lt_self (show 0 < n by omega) (show 1 < 10 by omega)
        omega
      rw [natOfDigits_append, ih (n / 10) hdiv]
      simp [natOfDigits, digitVal_digitChar]
      omega

theorem natOfDigits_natDigits (n : Nat) : natOfDigits (natDigits n) = n :=
  natOfDigits_natDigitsAux (n + 1) n (by omega)

/-! ## Model of Python's `str(round(x, 4))`

The script writes each coordinate with `str(round(point[dim], 4))`.
`round4` rounds a rational coordinate to 4 decimal places (banker's
rounding, ties to even, Python's documented rule), returning the value
scaled by `10^4` as an integer; `pyFloatChars` renders such a scaled
value the way Python renders the corresponding float in its plain
decimal range: optional sign, integer part, a dot, and the fractional
digits with trailing zeros stripped but at least one digit kept. -/

/-- The four fractional digit characters of `f < 10000`, most significant
first. -/
def pad4 (f : Nat) : List Char :=
  [digitChar (f / 1000), digitChar (f / 100), digitChar (f / 10), digitChar f]

/-- Remove trailing `'0'` characters. -/
def stripZeros : List Char → List Char
  | [] => []
  | c :: cs =>
    match stripZeros cs with
    | [] => if c = '0' then [] else [c]
    | r :: rs => c :: r :: rs

/-- Fractional digits printed after the dot: trailing zeros stripped, at
least one digit. -/
def fracChars (f : Nat) : List Char :=
  match stripZeros (pad4 f) with
  | [] => ['0']
  | r :: rs => r :: rs

/-- Rendering of the rational `n / 10^4` as Python renders the float
`round(x, 4)` in its plain decimal range. -/
def pyFloatChars (n : Int) : List Char :=
  (if n < 0 then ['-'] else []) ++
    natDigits (n.natAbs / 10000) ++ '.' :: fracChars (n.natAbs % 10000)

/-- Python's `round(x, 4)` on an exact rational value: nearest multiple
of `10 ^ (-4)`, ties to even, returned scaled by `10^4`. -/
def round4 (q : ℚ) : ℤ :=
  let x := q * 10000
  let f := ⌊x⌋
  if x - f < 1 / 2 then f
  else if 1 / 2 < x - f then f + 1
  else if f % 2 = 0 then f else f + 1

/-- The characters the script writes for one coordinate:
`str(round(q, 4))`. -/
def fmtChars (q : ℚ) : List Char := pyFloatChars (round4 q)

theorem stripZeros_spec (ds : List Char) :
    ∃ k, ds = stripZeros ds ++ List.replicate k '0' := by
  induction ds with
  | nil => exact ⟨0, rfl⟩
  | cons c cs ih =>
    obtain ⟨k, hk⟩ := ih
    rw [stripZeros]
    cases hs : stripZeros cs with
    | nil =>
      rw [hs] at hk
      by_cases hc : c = '0'
      · subst hc
        simp only [if_pos rfl]
        exact ⟨k + 1, by simp [hk, List.replicate_succ]⟩
      · simp only [if_neg hc]
        exact ⟨k, by simp [hk]⟩
    | cons r rs =>
      rw [hs] at hk
      exact ⟨k, by simp [hk]⟩

theorem mem_stripZeros (ds : List Char) (c : Char) (hc : c ∈ stripZeros ds) :
    c ∈ ds := by
  induction ds with
  | nil => simp [stripZeros] at hc
  | cons d cs ih =>
    rw [stripZeros] at hc
    split at hc
    · split at hc
      · simp at hc
      · simp at hc
        simp [hc]
    · rename_i r rs hs
      rw [List.mem_cons] at hc
      rcases hc with hc | hc
      · simp [hc]
      · exact List.mem_cons_of_mem _ (ih (by rw [hs]; exact hc))

theorem natOfDigits_replicate_zero (k : Nat) :
    natOfDigits (List.replicate k '0') = 0 := by
  induction k with
  | zero => rfl
  | succ k ih =>
    rw [List.replicate_succ, show List.replicate k '0' = List.replicate k '0' ++ [] by simp]
    simp only [natOfDigits, List.foldl_cons]
    have : digitVal '0' = 0 := rfl
    simpa [natOfDigits, this] using ih

theorem natOfDigits_stripZeros (ds : List Char) :
    ∃ k, ds.length = (stripZeros ds).length + k ∧
      natOfDigits ds = natOfDigits (stripZeros ds) * 10 ^ k := by
  obtain ⟨k, hk⟩ := stripZeros_spec ds
  refine ⟨k, ?_, ?_⟩
  · conv_lhs => rw [hk]
    simp
  · conv_lhs => rw [hk]
    rw [natOfDigits_append, natOfDigits_replicate_zero]
    simp

theorem natOfDigits_pad4 (f : Nat) (hf : f < 10000) :
    natOfDigits (pad4 f) = f := by
  simp only [pad4, natOfDigits, List.foldl_cons, List.foldl_nil,
    digitVal_digitChar]
  omega

theorem pad4_length (f : Nat) : (pad4 f).length = 4 := rfl

theorem mem_pad4 (f : Nat) (c : Char) (hc : c ∈ pad4 f) :
    ∃ d, c = digitChar d := by
  simp only [pad4, List.mem_cons, List.not_mem_nil, or_false] at hc
  rcases hc with h | h | h | h <;> exact ⟨_, h⟩

theorem mem_fracChars (f : Nat) (c : Char) (hc : c ∈ fracChars f) :
    ∃ d, c = digitChar d := by
  unfold fracChars at hc
  split at hc
  · simp at hc
    refine ⟨0, ?_⟩
    rw [hc]
    rfl
  · rename_i r rs hs
    exact mem_pad4 f c (mem_stripZeros _ _ (by rw [hs]; exact hc))

theorem fracChars_ne_nil (f : Nat) : fracChars f ≠ [] := by
  unfold fracChars
  split <;> simp

theorem mem_pyFloatChars (n : Int) (c : Char) (hc : c ∈ pyFloatChars n) :
    c = '-' ∨ c = '.' ∨ ∃ d, c = digitChar d := by
  unfold pyFloatChars at hc
  rcases List.mem_append.1 hc with h1 | h2
  · rcases List.mem_append.1 h1 with h3 | h4
    · split at h3
      · rw [List.mem_singleton] at h3
        exact Or.inl h3
      · simp at h3
    · exact Or.inr (Or.inr (mem_natDigits _ _ h4))
  · rcases List.mem_cons.1 h2 with h5 | h6
    · exact Or.inr (Or.inl h5)
    · exact Or.inr (Or.inr (mem_fracChars _ _ h6))

theorem pyFloatChars_ne_comma (n : Int) (c : Char) (hc : c ∈ pyFloatChars n) :
    c ≠ ',' := by
  rcases mem_pyFloatChars n c hc with h | h | ⟨d, h⟩ <;> subst h
  · decide
  · decide
  · exact digitChar_ne_comma d

theorem pyFloatChars_ne_newline (n : Int) (c : Char) (hc : c ∈ pyFloatChars n) :
    c ≠ '\n' := by
  rcases mem_pyFloatChars n c hc with h | h | ⟨d, h⟩ <;> subst h
  · decide
  · decide
  · exact digitChar_ne_newline d

theorem round4_scaled (n : Int) : round4 ((n : ℚ) / 10000) = n := by
  unfold round4
  have hx : (n : ℚ) / 10000 * 10000 = (n : ℚ) := by
    field_simp
  rw [hx]
  simp [Int.floor_intCast]

/-! ## Splitting a character stream on a separator -/

/-- Split a character list at every occurrence of `sep`; the separator is
dropped and the groups (possibly empty) are returned in order. -/
def splitOnChar (sep : Char) : List Char → List (List Char)
  | [] => [[]]
  | c :: cs =>
    if c = sep then [] :: splitOnChar sep cs
    else
      match splitOnChar sep cs with
      | [] => [[c]]
      | g :: gs => (c :: g) :: gs

theorem splitOnChar_ne_nil (sep : Char) (xs : List Char) :
    splitOnChar sep xs ≠ [] := by
  induction xs with
  | nil => simp [splitOnChar]
  | cons c cs ih =>
    rw [splitOnChar]
    split
    · simp
    · split <;> simp

theorem splitOnChar_append_cons (sep : Char) (xs ys : List Char) :
    splitOnChar sep (xs ++ sep :: ys) =
      splitOnChar sep xs ++ splitOnChar sep ys := by
  induction xs with
  | nil => simp [splitOnChar]
  | cons c cs ih =>
    by_cases hc : c = sep
    · subst hc
      rw [List.cons_append, splitOnChar, if_pos rfl, ih, splitOnChar, if_pos rfl]
      simp
    · rw [List.cons_append, splitOnChar, if_neg hc, ih, splitOnChar, if_neg hc]
      cases hs : splitOnChar sep cs with
      | nil => exact absurd hs (splitOnChar_ne_nil sep cs)
      | cons g gs => simp

theorem splitOnChar_of_not_mem (sep : Char) (xs : List Char)
    (h : sep ∉ xs) : splitOnChar sep xs = [xs] := by
  induction xs with
  | nil => rfl
  | cons c cs ih =>
    rw [List.mem_cons] at h
    push_neg at h
    rw [splitOnChar, if_neg (fun hc => h.1 hc.symm), ih h.2]

/-! ## The parser (no reader exists in the repository)

Modelled from the spec: the repository contains no code that reads the
text corpus back; the spec's round-trip property speaks of "parsing the
serialized file's numeric fields back into coordinates".  A numeric
field is parsed as Python's `float` would parse the plain decimal
strings the serializer emits: an optional minus sign, integer digits, a
dot, and fraction digits, valued exactly. -/

/-- Modelled from the spec: parse an unsigned plain decimal field
(`digits.digits` or bare `digits`) to its exact rational value. -/
def parseUnsigned (s : List Char) : Option ℚ :=
  let ip := s.takeWhile (fun c => c ≠ '.')
  match s.dropWhile (fun c => c ≠ '.') with
  | '.' :: frac =>
    if ip ≠ [] ∧ frac ≠ [] ∧ ip.all Char.isDigit ∧ frac.all Char.isDigit then
      some ((natOfDigits ip : ℚ) + (natOfDigits frac : ℚ) / (10 : ℚ) ^ frac.length)
    else none
  | _ =>
    if ip ≠ [] ∧ ip.all Char.isDigit then some ((natOfDigits ip : ℚ)) else none

/-- Modelled from the spec: parse one numeric field, with an optional
leading minus sign. -/
def parseField (s : List Char) : Option ℚ :=
  match s with
  | [] => none
  | c :: rest =>
    if c = '-' then (parseUnsigned rest).map (fun q => -q)
    else parseUnsigned (c :: rest)

theorem takeWhile_append_all (p : Char → Bool) (a b : List Char)
    (h : ∀ c ∈ a, p c = true) :
    (a ++ b).takeWhile p = a ++ b.takeWhile p := by
  induction a with
  | nil => simp
  | cons c cs ih =>
    simp only [List.cons_append, List.takeWhile_cons, h c (by simp)]
    rw [ih (fun x hx => h x (List.mem_cons_of_mem _ hx))]
    simp

theorem dropWhile_append_all (p : Char → Bool) (a b : List Char)
    (h : ∀ c ∈ a, p c = true) :
    (a ++ b).dropWhile p = b.dropWhile p := by
  induction a with
  | nil => simp
  | cons c cs ih =>
    simp only [List.cons_append, List.dropWhile_cons, h c (by simp)]
    rw [ih (fun x hx => h x (List.mem_cons_of_mem _ hx))]
    simp

theorem frac_value (f : Nat) (hf : f < 10000) :
    (natOfDigits (fracChars f) : ℚ) / (10 : ℚ) ^ (fracChars f).length =
      (f : ℚ) / 10 ^ 4 := by
  obtain ⟨k, hlen, hval⟩ := natOfDigits_stripZeros (pad4 f)
  rw [pad4_length, natOfDigits_pad4 f hf] at *
  unfold fracChars
  cases hs : stripZeros (pad4 f) with
  | nil =>
    rw [hs] at hval
    simp only [natOfDigits] at hval
    simp only [List.foldl_nil] at hval
    have hf0 : f = 0 := by omega
    subst hf0
    norm_num [natOfDigits, digitVal]
    rfl
  | cons r rs =>
    rw [hs] at hval hlen
    rw [hval]
    have hk : (10 : ℚ) ^ k ≠ 0 := by positivity
    have h4 : (4 : ℕ) = (r :: rs).length + k := hlen
    rw [h4]
    push_cast
    rw [pow_add]
    field_simp
    ring

theorem parseUnsigned_render (a : Nat) :
    parseUnsigned (natDigits (a / 10000) ++ '.' :: fracChars (a % 10000)) =
      some ((a : ℚ) / 10 ^ 4) := by
  have hdig : ∀ c ∈ natDigits (a / 10000), decide (c ≠ '.') = true := by
    intro c hc
    obtain ⟨d, hd⟩ := mem_natDigits _ _ hc
    subst hd
    simp [digitChar_ne_dot d]
  unfold parseUnsigned
  rw [takeWhile_append_all _ _ _ hdig, dropWhile_append_all _ _ _ hdig]
  simp only [List.takeWhile_cons]
  norm_num
  refine ⟨⟨natDigits_ne_nil _, fracChars_ne_nil _, ?_, ?_⟩, ?_⟩
  · intro x hx
    obtain ⟨d, hd⟩ := mem_natDigits _ _ hx
    rw [hd]
    exact digitChar_isDigit d
  · intro x hx
    obtain ⟨d, hd⟩ := mem_fracChars _ _ hx
    rw [hd]
    exact digitChar_isDigit d
  · rw [natOfDigits_natDigits, frac_value (a % 10000) (Nat.mod_lt _ (by omega))]
    have h : (10000 : ℚ) * ((a / 10000 : Nat) : ℚ) + ((a % 10000 : Nat) : ℚ) = (a : ℚ) := by
      exact_mod_cast Nat.div_add_mod a 10000
    field_simp
    linarith

theorem parseField_pyFloatChars (n : Int) :
    parseField (pyFloatChars n) = some ((n : ℚ) / 10 ^ 4) := by
  by_cases hn : n < 0
  · have hshape : pyFloatChars n =
        '-' :: (natDigits (n.natAbs / 10000) ++ '.' :: fracChars (n.natAbs % 10000)) := by
      unfold pyFloatChars
      rw [if_pos hn]
      simp
    rw [hshape, parseField, if_pos rfl, parseUnsigned_render]
    have habs : ((n.natAbs : ℚ)) = -(n : ℚ) := by
      rw [Int.cast_natAbs]
      exact_mod_cast abs_of_neg hn
    simp only [Option.map_some']
    congr 1
    rw [habs]
    ring
  · obtain ⟨c, rest, hcr⟩ := List.exists_cons_of_ne_nil (natDigits_ne_nil (n.natAbs / 10000))
    obtain ⟨d, hd⟩ := mem_natDigits _ c (by rw [hcr]; simp)
    have hshape : pyFloatChars n =
        c :: (rest ++ '.' :: fracChars (n.natAbs % 10000)) := by
      unfold pyFloatChars
      rw [if_neg hn, hcr]
      simp
    rw [hshape, parseField, if_neg (by rw [hd]; exact digitChar_ne_minus d)]
    have hback : c :: (rest ++ '.' :: fracChars (n.natAbs % 10000)) =
        natDigits (n.natAbs / 10000) ++ '.' :: fracChars (n.natAbs % 10000) := by
      rw [hcr]
      simp
    rw [hback, parseUnsigned_render]
    congr 1
    have habs : ((n.natAbs : ℚ)) = (n : ℚ) := by
      rw [Int.cast_natAbs]
      exact_mod_cast abs_of_nonneg (le_of_not_lt hn)
    rw [habs]

/-- Parsing what the serializer wrote for `q` recovers exactly the rounded
value `round4 q / 10 ^ 4`. -/
theorem parseField_fmtChars (q : ℚ) :
    parseField (fmtChars q) = some ((round4 q : ℚ) / 10 ^ 4) := by
  unfold fmtChars
  exact parseField_pyFloatChars (round4 q)

/-- Re-serializing a parsed field reproduces it byte for byte. -/
theorem fmtChars_parseField_roundtrip (q : ℚ) :
    fmtChars ((round4 q : ℚ) / 10 ^ 4) = fmtChars q := by
  unfold fmtChars
  have h : ((10 : ℚ) ^ 4) = 10000 := by norm_num
  rw [h, round4_scaled]

/-! ## The serializer (the writing loop of the script)

```
for point in x:
    for dim in range(dimensions):
        if dim == dimensions - 1:
            dataset.write(str(round(point[dim], 4)))
        else:
            dataset.write(str(round(point[dim], 4)) + ",")
    dataset.write("\n")
```
-/

/-- The characters the inner loop writes for one point: for each
`dim in range(dimensions)` the formatted coordinate, followed by a comma
except in the last position.  (The trailing newline is written by the
outer loop, see `writeFile`.) -/
def pointLine (dims : Nat) (p : List ℚ) : List Char :=
  (List.range dims).flatMap
    (fun dim =>
      if dim = dims - 1 then fmtChars (p.getD dim 0)
      else fmtChars (p.getD dim 0) ++ [','])

/-- The full text file the outer loop writes: each point's line followed
by a newline, in dataset order. -/
def writeFile (dims : Nat) (pts : List (List ℚ)) : List Char :=
  pts.flatMap (fun p => pointLine dims p ++ ['\n'])

/-- The writing loop consumes only the point array `x` of the
`(x, y) = make_blobs(...)` pair; the label array `y` is never read. -/
def writeDataset (dims : Nat) (data : List (List ℚ) × List Nat) : List Char :=
  writeFile dims data.1

theorem flatMap_congr_mem {α β : Type} (l : List α) (f g : α → List β)
    (h : ∀ a ∈ l, f a = g a) : l.flatMap f = l.flatMap g := by
  induction l with
  | nil => rfl
  | cons a as ih =>
    simp only [List.flatMap_cons, h a (by simp)]
    rw [ih (fun x hx => h x (List.mem_cons_of_mem _ hx))]

/-- All but the last field, each with its separating comma. -/
def commaChunks (k : Nat) (p : List ℚ) : List Char :=
  (List.range k).flatMap (fun i => fmtChars (p.getD i 0) ++ [','])

theorem pointLine_eq (d : Nat) (hd : 1 ≤ d) (p : List ℚ) :
    pointLine d p = commaChunks (d - 1) p ++ fmtChars (p.getD (d - 1) 0) := by
  obtain ⟨k, rfl⟩ : ∃ k, d = k + 1 := ⟨d - 1, (Nat.succ_pred_eq_of_pos hd).symm⟩
  unfold pointLine commaChunks
  rw [List.range_succ, List.flatMap_append]
  simp only [Nat.add_sub_cancel]
  congr 1
  · apply flatMap_congr_mem
    intro i hi
    rw [List.mem_range] at hi
    rw [if_neg (by omega)]
  · simp

theorem comma_not_mem_fmtChars (q : ℚ) : ',' ∉ fmtChars q :=
  fun hm => pyFloatChars_ne_comma _ _ hm rfl

theorem newline_not_mem_fmtChars (q : ℚ) : '\n' ∉ fmtChars q :=
  fun hm => pyFloatChars_ne_newline _ _ hm rfl

theorem count_comma_commaChunks (k : Nat) (p : List ℚ) :
    List.count ',' (commaChunks k p) = k := by
  induction k with
  | zero => rfl
  | succ k ih =>
    unfold commaChunks at *
    rw [List.range_succ, List.flatMap_append, List.count_append, ih]
    simp [List.count_eq_zero.2 (comma_not_mem_fmtChars _)]

theorem count_comma_pointLine (d : Nat) (hd : 1 ≤ d) (p : List ℚ) :
    List.count ',' (pointLine d p) = d - 1 := by
  rw [pointLine_eq d hd p, List.count_append, count_comma_commaChunks,
    List.count_eq_zero.2 (comma_not_mem_fmtChars _)]
  omega

theorem newline_not_mem_pointLine (d : Nat) (p : List ℚ) :
    '\n' ∉ pointLine d p := by
  intro hm
  rw [pointLine, List.mem_flatMap] at hm
  obtain ⟨i, _, hc⟩ := hm
  split at hc
  · exact newline_not_mem_fmtChars _ hc
  · rw [List.mem_append] at hc
    rcases hc with hc | hc
    · exact newline_not_mem_fmtChars _ hc
    · simp at hc

theorem splitOnChar_comma_commaChunks (k : Nat) (p : List ℚ) (tail : List Char) :
    splitOnChar ',' (commaChunks k p ++ tail) =
      (List.range k).map (fun i => fmtChars (p.getD i 0)) ++ splitOnChar ',' tail := by
  induction k generalizing tail with
  | zero => simp [commaChunks]
  | succ k ih =>
    unfold commaChunks at *
    rw [List.range_succ, List.flatMap_append, List.map_append]
    simp only [List.flatMap_cons, List.flatMap_nil, List.append_nil,
      List.map_cons, List.map_nil]
    have hassoc :
        ((List.range k).flatMap (fun i => fmtChars (p.getD i 0) ++ [',']) ++
            (fmtChars (p.getD k 0) ++ [','])) ++ tail =
          (List.range k).flatMap (fun i => fmtChars (p.getD i 0) ++ [',']) ++
            (fmtChars (p.getD k 0) ++ ',' :: tail) := by
      simp
    rw [hassoc, ih, splitOnChar_append_cons,
      splitOnChar_of_not_mem ',' _ (comma_not_mem_fmtChars _)]
    simp

theorem splitOnChar_comma_pointLine (d : Nat) (hd : 1 ≤ d) (p : List ℚ) :
    splitOnChar ',' (pointLine d p) =
      (List.range d).map (fun i => fmtChars (p.getD i 0)) := by
  obtain ⟨k, rfl⟩ : ∃ k, d = k + 1 := ⟨d - 1, (Nat.succ_pred_eq_of_pos hd).symm⟩
  rw [pointLine_eq _ hd p]
  simp only [Nat.add_sub_cancel]
  rw [splitOnChar_comma_commaChunks,
    splitOnChar_of_not_mem ',' _ (comma_not_mem_fmtChars _),
    List.range_succ, List.map_append]
  simp

theorem splitOnChar_newline_writeFile (d : Nat) (pts : List (List ℚ)) :
    splitOnChar '\n' (writeFile d pts) = pts.map (pointLine d) ++ [[]] := by
  induction pts with
  | nil => rfl
  | cons p ps ih =>
    unfold writeFile at *
    rw [List.flatMap_cons]
    have hassoc : (pointLine d p ++ ['\n']) ++ ps.flatMap (fun p => pointLine d p ++ ['\n']) =
        pointLine d p ++ '\n' :: ps.flatMap (fun p => pointLine d p ++ ['\n']) := by
      simp
    rw [hassoc, splitOnChar_append_cons,
      splitOnChar_of_not_mem '\n' _ (newline_not_mem_pointLine d p), ih]
    simp

theorem count_newline_writeFile (d : Nat) (pts : List (List ℚ)) :
    List.count '\n' (writeFile d pts) = pts.length := by
  induction pts with
  | nil => rfl
  | cons p ps ih =>
    unfold writeFile at *
    rw [List.flatMap_cons, List.count_append, List.count_append, ih,
      List.count_eq_zero.2 (newline_not_mem_pointLine d p)]
    simp
    omega

/-! ## Configuration, blob generation, paths, and the run's event trace -/

/-- The three size parameters of one run.  The script hardcodes them as
module-level constants and performs no validation on them. -/
structure Config where
  dimensions : Nat
  centroids : Nat
  samples : Nat
deriving DecidableEq

/-- The constants at the top of the script: `dimensions = 3`,
`centroids = 7`, `samples = 100000`. -/
def scriptConfig : Config := ⟨3, 7, 100000⟩

/-- Modelled from the spec: `sklearn.datasets.make_blobs` is an external
library call whose source is not part of this repository.  Per the spec,
its random source consists of the centroid coordinate draws, a uniform
per-sample draw of a centroid index, and per-sample per-dimension noise
draws; we take these three streams as an explicit parameter. -/
structure Draws where
  centroidCoord : Nat → Nat → ℚ
  assign : Nat → Nat
  noise : Nat → Nat → ℚ

/-- Modelled from the spec: `x, y = make_blobs(n_samples=samples,
centers=centroids, n_features=dimensions)` places `centroids` centroid
vectors of `dimensions` coordinates, assigns each of the `samples`
samples a drawn centroid index in `[0, centroids)`, and emits each
sample's point as its centroid plus per-dimension noise, in sample
order; it returns the point array `x` and the label array `y`. -/
def makeBlobs (cfg : Config) (dr : Draws) : List (List ℚ) × List Nat :=
  ((List.range cfg.samples).map (fun i =>
      (List.range cfg.dimensions).map (fun j =>
        dr.centroidCoord (dr.assign i % cfg.centroids) j + dr.noise i j)),
    (List.range cfg.samples).map (fun i => dr.assign i % cfg.centroids))

theorem makeBlobs_points_length (cfg : Config) (dr : Draws) :
    (makeBlobs cfg dr).1.length = cfg.samples := by
  simp [makeBlobs]

theorem makeBlobs_labels_length (cfg : Config) (dr : Draws) :
    (makeBlobs cfg dr).2.length = cfg.samples := by
  simp [makeBlobs]

theorem makeBlobs_point_dims (cfg : Config) (dr : Draws) :
    ∀ p ∈ (makeBlobs cfg dr).1, p.length = cfg.dimensions := by
  intro p hp
  simp only [makeBlobs, List.mem_map] at hp
  obtain ⟨i, _, rfl⟩ := hp
  simp

theorem makeBlobs_label_lt (cfg : Config) (dr : Draws) (hk : 1 ≤ cfg.centroids) :
    ∀ l ∈ (makeBlobs cfg dr).2, l < cfg.centroids := by
  intro l hl
  simp only [makeBlobs, List.mem_map] at hl
  obtain ⟨i, _, rfl⟩ := hl
  exact Nat.mod_lt _ (by omega)

/-- Model of `os.path.join` for the relative second components the
script joins: `os.path.join(a, b)` is `a + "/" + b`. -/
def pathJoin (a b : String) : String := a ++ "/" ++ b

/-- The script line `plot_directory = os.path.join(directory, "plots")`. -/
def plotDirectory (cwd : String) : String := pathJoin cwd "plots"

/-- The script line `txt_directory = os.path.join(directory, "txt")`. -/
def txtDirectory (cwd : String) : String := pathJoin cwd "txt"

/-- The script line `filename = os.path.join(txt_directory,
f"data_{samples}_{dimensions}_{centroids}.txt")`. -/
def dataFilePath (cwd : String) (cfg : Config) : String :=
  pathJoin (txtDirectory cwd)
    ("data_" ++ toString cfg.samples ++ "_" ++ toString cfg.dimensions ++ "_"
      ++ toString cfg.centroids ++ ".txt")

/-- The path `scatter_matrix_{samples}_{dimensions}_{centroids}.png` under the
plot directory. -/
def scatterMatrixPath (cwd : String) (cfg : Config) : String :=
  pathJoin (plotDirectory cwd)
    ("scatter_matrix_" ++ toString cfg.samples ++ "_" ++ toString cfg.dimensions ++ "_"
      ++ toString cfg.centroids ++ ".png")

/-- The path `scatter_plot_{samples}_{dimensions}_{centroids}.png` under the
plot directory. -/
def scatterPlotPath (cwd : String) (cfg : Config) : String :=
  pathJoin (plotDirectory cwd)
    ("scatter_plot_" ++ toString cfg.samples ++ "_" ++ toString cfg.dimensions ++ "_"
      ++ toString cfg.centroids ++ ".png")

/-- The text the script's `with open(filename, "w")` block leaves in the
dataset file: the serialized point array of `make_blobs`. -/
def pipelineFile (cfg : Config) (dr : Draws) : List Char :=
  writeFile cfg.dimensions (makeBlobs cfg dr).1

/-- Observable filesystem and console effects of one script run. -/
inductive Event where
  | mkdir (path : String)
  | fileClosed (path : String) (contents : List Char)
  | plotSaved (path : String)
  | configError
  | raised (msg : String)
  | printed (line : String)
deriving DecidableEq

/-- Events after the scatter-matrix save: the `df.groupby('label')` loop
calls `group.plot(x='x_0', y='x_1')` once per label group, raising a
`KeyError` when column `x_1` (or `x_0`) is absent, i.e. when
`dimensions < 2`; with no samples there are no groups, so nothing is
read or raised and the run completes with its three prints. -/
def scatterTail (cwd : String) (cfg : Config) (dr : Draws) : List Event :=
  if (makeBlobs cfg dr).2 = [] ∨ 2 ≤ cfg.dimensions then
    [Event.plotSaved (scatterPlotPath cwd cfg),
     Event.printed ("Dataset saved to: " ++ dataFilePath cwd cfg),
     Event.printed ("Scatter Matrix Plot saved to: " ++ scatterMatrixPath cwd cfg),
     Event.printed ("Scatter Plot saved to: " ++ scatterPlotPath cwd cfg)]
  else [Event.raised "KeyError: x_1"]

/-- The full run, in program order: the two `os.makedirs` calls, the
dataset write block (opened, fully written, closed), the scatter-matrix
save, then the color-coded scatter plot and the three prints. -/
def pipelineEvents (cwd : String) (cfg : Config) (dr : Draws) : List Event :=
  Event.mkdir (plotDirectory cwd) :: Event.mkdir (txtDirectory cwd) ::
    Event.fileClosed (dataFilePath cwd cfg) (pipelineFile cfg dr) ::
    Event.plotSaved (scatterMatrixPath cwd cfg) :: scatterTail cwd cfg dr

/-! ## Parsing a serialized file back (no reader exists in the repo) -/

/-- Modelled from the spec: parse one line into the exact values of its
comma-separated numeric fields. -/
def parseLine (l : List Char) : Option (List ℚ) :=
  (splitOnChar ',' l).mapM parseField

/-- Modelled from the spec: parse every newline-terminated line of the
file into coordinate values. -/
def parseFile (file : List Char) : Option (List (List ℚ)) :=
  ((splitOnChar '\n' file).dropLast).mapM parseLine

/-- Parse the file and serialize the parsed coordinate values again. -/
def reserialize (dims : Nat) (file : List Char) : Option (List Char) :=
  (parseFile file).map (writeFile dims)

theorem mapM_map_eq_some {α β γ : Type} (l : List α) (g : α → β)
    (f : β → Option γ) (h : α → γ) (hh : ∀ a ∈ l, f (g a) = some (h a)) :
    (l.map g).mapM f = some (l.map h) := by
  induction l with
  | nil => rfl
  | cons a as ih =>
    rw [List.map_cons, List.mapM_cons, hh a (by simp),
      ih (fun x hx => hh x (List.mem_cons_of_mem _ hx))]
    rfl

theorem parseLine_pointLine (d : Nat) (hd : 1 ≤ d) (p : List ℚ) :
    parseLine (pointLine d p) =
      some ((List.range d).map (fun i => ((round4 (p.getD i 0) : ℚ) / 10 ^ 4))) := by
  unfold parseLine
  rw [splitOnChar_comma_pointLine d hd p]
  exact mapM_map_eq_some _ _ _ _ (fun i _ => parseField_fmtChars (p.getD i 0))

theorem parseFile_writeFile (d : Nat) (hd : 1 ≤ d) (pts : List (List ℚ)) :
    parseFile (writeFile d pts) =
      some (pts.map (fun p =>
        (List.range d).map (fun i => ((round4 (p.getD i 0) : ℚ) / 10 ^ 4)))) := by
  unfold parseFile
  rw [splitOnChar_newline_writeFile]
  have hdrop : (pts.map (pointLine d) ++ [[]]).dropLast = pts.map (pointLine d) := by
    simp
  rw [hdrop]
  exact mapM_map_eq_some _ _ _ _ (fun p _ => parseLine_pointLine d hd p)

theorem getD_map_range {β : Type} (d i : Nat) (hi : i < d) (f : Nat → β) (v : β) :
    ((List.range d).map f).getD i v = f i := by
  have hlen : i < ((List.range d).map f).length := by simp [hi]
  rw [List.getD_eq_getElem _ _ hlen]
  simp

theorem pointLine_congr (d : Nat) (p p' : List ℚ)
    (h : ∀ i < d, fmtChars (p.getD i 0) = fmtChars (p'.getD i 0)) :
    pointLine d p = pointLine d p' := by
  unfold pointLine
  apply flatMap_congr_mem
  intro i hi
  rw [List.mem_range] at hi
  rw [h i hi]

theorem writeFile_parsed (d : Nat) (pts : List (List ℚ)) :
    writeFile d (pts.map (fun p =>
        (List.range d).map (fun i => ((round4 (p.getD i 0) : ℚ) / 10 ^ 4)))) =
      writeFile d pts := by
  unfold writeFile
  rw [List.flatMap_map]
  apply flatMap_congr_mem
  intro p _
  rw [pointLine_congr d _ p]
  intro i hi
  rw [getD_map_range d i hi]
  exact fmtChars_parseField_roundtrip (p.getD i 0)

/-! ## Rounded-coordinate view of the file and label grouping -/

/-- The 4-decimal rounded coordinates the serializer writes for one
point, scaled by `10^4`. -/
def roundvec (d : Nat) (p : List ℚ) : List ℤ :=
  (List.range d).map (fun i => round4 (p.getD i 0))

/-- The rational value a scaled rounded coordinate denotes. -/
def qscale (n : ℤ) : ℚ := (n : ℚ) / 10 ^ 4

/-- A label sequence is grouped when collapsing adjacent runs leaves no
repeated label, i.e. all equal labels sit contiguously. -/
def isGrouped (l : List Nat) : Prop := (l.destutter (· ≠ ·)).Nodup

instance (l : List Nat) : Decidable (isGrouped l) := by
  unfold isGrouped
  infer_instance

theorem qscale_injective : Function.Injective qscale := by
  intro a b hab
  unfold qscale at hab
  field_simp at hab
  exact_mod_cast hab

theorem parsedPoint_eq_roundvec (d : Nat) (p : List ℚ) :
    (List.range d).map (fun i => ((round4 (p.getD i 0) : ℚ) / 10 ^ 4)) =
      (roundvec d p).map qscale := by
  unfold roundvec qscale
  rw [List.map_map]
  rfl

theorem writeFile_eq_iff_roundvec (d : Nat) (hd : 1 ≤ d)
    (pts1 pts2 : List (List ℚ)) :
    writeFile d pts1 = writeFile d pts2 ↔
      pts1.map (roundvec d) = pts2.map (roundvec d) := by
  constructor
  · intro h
    have h1 := parseFile_writeFile d hd pts1
    rw [h, parseFile_writeFile d hd pts2] at h1
    have h2 := Option.some_inj.mp h1
    have h3 : (pts2.map (roundvec d)).map (List.map qscale) =
        (pts1.map (roundvec d)).map (List.map qscale) := by
      rw [List.map_map, List.map_map]
      have hfun : (List.map qscale ∘ roundvec d) =
          (fun p => (List.range d).map (fun i => ((round4 (p.getD i 0) : ℚ) / 10 ^ 4))) := by
        funext p
        exact (parsedPoint_eq_roundvec d p).symm
      rw [hfun]
      exact h2
    have hinj : Function.Injective (List.map (List.map qscale)) :=
      List.map_injective_iff.2 (List.map_injective_iff.2 qscale_injective)
    exact (hinj h3).symm
  · intro h
    have hw1 := writeFile_parsed d pts1
    have hw2 := writeFile_parsed d pts2
    rw [← hw1, ← hw2]
    congr 1
    have hfun : (fun p => (List.range d).map
        (fun i => ((round4 (p.getD i 0) : ℚ) / 10 ^ 4))) =
          (List.map qscale ∘ roundvec d) := by
      funext p
      exact parsedPoint_eq_roundvec d p
    rw [hfun, ← List.map_map, ← List.map_map, h]

/-! ## The claims -/

section Claims

attribute [local semireducible] Rat.mul Rat.add Rat.sub Rat.inv

/-- All-zero random draws. -/
def drZero : Draws := ⟨fun _ _ => 0, fun _ => 0, fun _ _ => 0⟩

/-- Draws whose centroid coordinates are all 1. -/
def drOne : Draws := ⟨fun _ _ => 1, fun _ => 0, fun _ _ => 0⟩

/-- Draws whose assignment sequence is `0, 0, 1, 1, ...`. -/
def drGrouped : Draws := ⟨fun _ _ => 0, fun i => i / 2, fun _ _ => 0⟩

/-- Draws whose assignment sequence alternates `0, 1, 0, 1, ...`
(modulo the centroid count). -/
def drAlternating : Draws := ⟨fun _ _ => 0, fun i => i, fun _ _ => 0⟩

/-- C1: for a run with `dimensions ≥ 1`, the serialized text contains
exactly `samples` newline-terminated lines, one per point in dataset
order; splitting any line at commas yields exactly the `dimensions`
formatted numeric fields (so `dimensions - 1` commas, no trailing
comma, no stray newline inside a line); and the written file is a
function of the point array alone — the labels are never written. -/
theorem C1_serialized_format (cfg : Config) (dr : Draws)
    (hd : 1 ≤ cfg.dimensions) :
    List.count '\n' (pipelineFile cfg dr) = cfg.samples ∧
    splitOnChar '\n' (pipelineFile cfg dr) =
      (makeBlobs cfg dr).1.map (pointLine cfg.dimensions) ++ [[]] ∧
    (∀ p ∈ (makeBlobs cfg dr).1,
      splitOnChar ',' (pointLine cfg.dimensions p) =
        (List.range cfg.dimensions).map (fun i => fmtChars (p.getD i 0)) ∧
      List.count ',' (pointLine cfg.dimensions p) = cfg.dimensions - 1 ∧
      '\n' ∉ pointLine cfg.dimensions p) ∧
    (∀ ys : List Nat,
      writeDataset cfg.dimensions ((makeBlobs cfg dr).1, ys) = pipelineFile cfg dr) := by
  refine ⟨?_, ?_, ?_, fun ys => rfl⟩
  · unfold pipelineFile
    rw [count_newline_writeFile, makeBlobs_points_length]
  · exact splitOnChar_newline_writeFile _ _
  · intro p _
    exact ⟨splitOnChar_comma_pointLine _ hd p, count_comma_pointLine _ hd p,
      newline_not_mem_pointLine _ p⟩

theorem C1_serialized_format_witness :
    1 ≤ (⟨2, 2, 2⟩ : Config).dimensions ∧
    (List.count '\n' (pipelineFile ⟨2, 2, 2⟩ drZero) = (⟨2, 2, 2⟩ : Config).samples ∧
    splitOnChar '\n' (pipelineFile ⟨2, 2, 2⟩ drZero) =
      (makeBlobs ⟨2, 2, 2⟩ drZero).1.map (pointLine 2) ++ [[]] ∧
    (∀ p ∈ (makeBlobs ⟨2, 2, 2⟩ drZero).1,
      splitOnChar ',' (pointLine 2 p) =
        (List.range 2).map (fun i => fmtChars (p.getD i 0)) ∧
      List.count ',' (pointLine 2 p) = 2 - 1 ∧
      '\n' ∉ pointLine 2 p) ∧
    (∀ ys : List Nat,
      writeDataset 2 ((makeBlobs ⟨2, 2, 2⟩ drZero).1, ys) = pipelineFile ⟨2, 2, 2⟩ drZero)) :=
  ⟨by decide, C1_serialized_format ⟨2, 2, 2⟩ drZero (by decide)⟩

/-- C2: for every valid configuration the generated dataset has exactly
`samples` point rows and `samples` labels, every point has exactly
`dimensions` coordinates, and every label lies in `[0, centroids)`. -/
theorem C2_dataset_invariants (cfg : Config) (dr : Draws)
    (_hd : 1 ≤ cfg.dimensions) (hk : 1 ≤ cfg.centroids) (_hs : 1 ≤ cfg.samples) :
    (makeBlobs cfg dr).1.length = cfg.samples ∧
    (makeBlobs cfg dr).2.length = cfg.samples ∧
    (∀ p ∈ (makeBlobs cfg dr).1, p.length = cfg.dimensions) ∧
    (∀ l ∈ (makeBlobs cfg dr).2, l < cfg.centroids) :=
  ⟨makeBlobs_points_length cfg dr, makeBlobs_labels_length cfg dr,
    makeBlobs_point_dims cfg dr, makeBlobs_label_lt cfg dr hk⟩

theorem C2_dataset_invariants_witness :
    (1 ≤ (⟨2, 3, 4⟩ : Config).dimensions ∧ 1 ≤ (⟨2, 3, 4⟩ : Config).centroids ∧
      1 ≤ (⟨2, 3, 4⟩ : Config).samples) ∧
    ((makeBlobs ⟨2, 3, 4⟩ drZero).1.length = (⟨2, 3, 4⟩ : Config).samples ∧
    (makeBlobs ⟨2, 3, 4⟩ drZero).2.length = (⟨2, 3, 4⟩ : Config).samples ∧
    (∀ p ∈ (makeBlobs ⟨2, 3, 4⟩ drZero).1, p.length = (⟨2, 3, 4⟩ : Config).dimensions) ∧
    (∀ l ∈ (makeBlobs ⟨2, 3, 4⟩ drZero).2, l < (⟨2, 3, 4⟩ : Config).centroids)) :=
  ⟨⟨by decide, by decide, by decide⟩,
    C2_dataset_invariants ⟨2, 3, 4⟩ drZero (by decide) (by decide) (by decide)⟩

/-- C4 counterexample: with the non-positive parameter `samples = 0` the
run reports no configuration error and generation runs anyway, writing
and closing an empty dataset file — the script validates nothing. -/
theorem C4_no_validation_counterexample :
    Event.configError ∉ pipelineEvents "." ⟨3, 7, 0⟩ drZero ∧
    Event.fileClosed "./txt/data_0_3_7.txt" [] ∈ pipelineEvents "." ⟨3, 7, 0⟩ drZero := by
  decide

/-- C4 (amended): the script hardcodes its three parameters as the
positive integer constants 3, 7, 100000 and performs no validation at
all: for any parameter values, including non-positive ones, no
configuration error is ever reported and the dataset write block always
runs to completion. -/
theorem C4_no_validation (cwd : String) (cfg : Config) (dr : Draws) :
    1 ≤ scriptConfig.dimensions ∧ 1 ≤ scriptConfig.centroids ∧
    1 ≤ scriptConfig.samples ∧
    Event.configError ∉ pipelineEvents cwd cfg dr ∧
    Event.fileClosed (dataFilePath cwd cfg) (pipelineFile cfg dr) ∈
      pipelineEvents cwd cfg dr := by
  refine ⟨by decide, by decide, by decide, ?_, by simp [pipelineEvents]⟩
  intro hmem
  unfold pipelineEvents scatterTail at hmem
  split at hmem <;> simp at hmem

/-- C5 counterexample: the script passes no `random_state` to
`make_blobs` and seeds nothing, so a run is a function of the ambient
random draws; two runs with the same configuration but different
ambient draws produce different file bytes. -/
theorem C5_determinism_counterexample :
    pipelineFile ⟨1, 1, 1⟩ drZero ≠ pipelineFile ⟨1, 1, 1⟩ drOne := by
  decide

/-- C5 (amended): with the configuration fixed, two runs produce
byte-identical dataset files exactly when their ambient random draws
yield the same 4-decimal-rounded coordinates; the script exposes no
seed with which to force this. -/
theorem C5_determinism (cfg : Config) (dr1 dr2 : Draws)
    (hd : 1 ≤ cfg.dimensions) :
    pipelineFile cfg dr1 = pipelineFile cfg dr2 ↔
      ((makeBlobs cfg dr1).1).map (roundvec cfg.dimensions) =
        ((makeBlobs cfg dr2).1).map (roundvec cfg.dimensions) :=
  writeFile_eq_iff_roundvec cfg.dimensions hd _ _

theorem C5_determinism_witness :
    1 ≤ (⟨1, 1, 1⟩ : Config).dimensions ∧
    (pipelineFile ⟨1, 1, 1⟩ drZero = pipelineFile ⟨1, 1, 1⟩ drOne ↔
      ((makeBlobs ⟨1, 1, 1⟩ drZero).1).map (roundvec 1) =
        ((makeBlobs ⟨1, 1, 1⟩ drOne).1).map (roundvec 1)) :=
  ⟨by decide, C5_determinism ⟨1, 1, 1⟩ drZero drOne (by decide)⟩

/-- C6: parsing every numeric field of a serialized dataset file back
into coordinate values and serializing the parsed values again yields a
file byte-identical to the original. -/
theorem C6_roundtrip (d : Nat) (hd : 1 ≤ d) (pts : List (List ℚ)) :
    reserialize d (writeFile d pts) = some (writeFile d pts) := by
  unfold reserialize
  rw [parseFile_writeFile d hd pts]
  simp only [Option.map_some']
  rw [writeFile_parsed]

theorem C6_roundtrip_witness :
    1 ≤ 2 ∧ reserialize 2 (writeFile 2 [[1 / 3, -5 / 2]]) =
      some (writeFile 2 [[1 / 3, -5 / 2]]) :=
  ⟨by decide, C6_roundtrip 2 (by decide) [[1 / 3, -5 / 2]]⟩

/-- C7 counterexample: a run with two centroids and four samples whose
assignment draw is `0, 0, 1, 1` produces a dataset whose output order IS
grouped by cluster — all same-label samples are contiguous — refuting
the claim that no generated dataset is grouped. -/
theorem C7_order_counterexample :
    (makeBlobs ⟨1, 2, 4⟩ drGrouped).2 = [0, 0, 1, 1] ∧
    isGrouped ((makeBlobs ⟨1, 2, 4⟩ drGrouped).2) := by
  decide

/-- C7 (amended): the dataset order is exactly the per-sample assignment
order — the generator never regroups samples by label — so same-label
samples are interleaved for alternating draws, but contiguous grouping
is possible and not excluded. -/
theorem C7_order_not_regrouped :
    (∀ (cfg : Config) (dr : Draws),
      (makeBlobs cfg dr).2 =
        (List.range cfg.samples).map (fun i => dr.assign i % cfg.centroids)) ∧
    ¬ isGrouped ((makeBlobs ⟨1, 2, 4⟩ drAlternating).2) :=
  ⟨fun _ _ => rfl, by decide⟩

/-- C8: the dataset file path is the `txt` directory joined to the
filename `data_{samples}_{dimensions}_{centroids}.txt` with the three
run parameters substituted in that order, and the run's single write
event targets exactly this path. -/
theorem C8_output_path (cwd : String) (cfg : Config) (dr : Draws) :
    dataFilePath cwd cfg =
      cwd ++ "/" ++ "txt" ++ "/" ++ "data_" ++ toString cfg.samples ++ "_"
        ++ toString cfg.dimensions ++ "_" ++ toString cfg.centroids ++ ".txt" ∧
    Event.fileClosed (dataFilePath cwd cfg) (pipelineFile cfg dr) ∈
      pipelineEvents cwd cfg dr := by
  constructor
  · unfold dataFilePath txtDirectory pathJoin
    simp only [String.append_assoc]
  · simp [pipelineEvents]

/-- C9 counterexample: with `dimensions = 1` but zero samples the
`groupby` loop body never runs, so the column `x_1` is never read: the
scatter-plot step does not raise and the whole run completes, printing
all three artifact paths. -/
theorem C9_dim1_counterexample :
    pipelineEvents "." ⟨1, 1, 0⟩ drZero =
      [Event.mkdir "./plots", Event.mkdir "./txt",
       Event.fileClosed "./txt/data_0_1_1.txt" [],
       Event.plotSaved "./plots/scatter_matrix_0_1_1.png",
       Event.plotSaved "./plots/scatter_plot_0_1_1.png",
       Event.printed "Dataset saved to: ./txt/data_0_1_1.txt",
       Event.printed "Scatter Matrix Plot saved to: ./plots/scatter_matrix_0_1_1.png",
       Event.printed "Scatter Plot saved to: ./plots/scatter_plot_0_1_1.png"] := by
  decide

/-- C9 (amended): whenever at least one sample exists, the color-coded
scatter-plot step raises its `KeyError` for `dimensions = 1` (the loop
reads the absent column `x_1`), and more generally the run raises if and
only if `dimensions < 2` — the three-artifact run completes only for
`dimensions ≥ 2`. -/
theorem C9_dim1_plot_failure (cwd : String) (cfg : Config) (dr : Draws)
    (hs : 1 ≤ cfg.samples) :
    (cfg.dimensions = 1 →
      Event.raised "KeyError: x_1" ∈ pipelineEvents cwd cfg dr) ∧
    ((∃ m, Event.raised m ∈ pipelineEvents cwd cfg dr) ↔ cfg.dimensions < 2) := by
  have hne : (makeBlobs cfg dr).2 ≠ [] := by
    intro h0
    have hlen := makeBlobs_labels_length cfg dr
    rw [h0] at hlen
    simp at hlen
    omega
  constructor
  · intro h1
    unfold pipelineEvents scatterTail
    rw [if_neg (by rintro (h | h); exact hne h; omega)]
    simp
  · constructor
    · rintro ⟨m, hm⟩
      by_contra hge
      push_neg at hge
      unfold pipelineEvents scatterTail at hm
      rw [if_pos (Or.inr hge)] at hm
      simp at hm
    · intro hlt
      refine ⟨"KeyError: x_1", ?_⟩
      unfold pipelineEvents scatterTail
      rw [if_neg (by rintro (h | h); exact hne h; omega)]
      simp

theorem C9_dim1_plot_failure_witness :
    1 ≤ (⟨1, 1, 1⟩ : Config).samples ∧
    (((⟨1, 1, 1⟩ : Config).dimensions = 1 →
      Event.raised "KeyError: x_1" ∈ pipelineEvents "." ⟨1, 1, 1⟩ drZero) ∧
    ((∃ m, Event.raised m ∈ pipelineEvents "." ⟨1, 1, 1⟩ drZero) ↔
      (⟨1, 1, 1⟩ : Config).dimensions < 2)) :=
  ⟨by decide, C9_dim1_plot_failure "." ⟨1, 1, 1⟩ drZero (by decide)⟩

/-- C10: in every run the dataset file is completely written and closed
— holding exactly `samples` newline-terminated lines — strictly before
any visualization event, and no later event ever writes a file again, so
a plotting failure cannot leave the text corpus partially written. -/
theorem C10_write_before_plots (cwd : String) (cfg : Config) (dr : Draws) :
    ∃ rest, pipelineEvents cwd cfg dr =
        Event.mkdir (plotDirectory cwd) :: Event.mkdir (txtDirectory cwd) ::
          Event.fileClosed (dataFilePath cwd cfg) (pipelineFile cfg dr) :: rest ∧
      (∀ pa c, Event.fileClosed pa c ∉ rest) ∧
      List.count '\n' (pipelineFile cfg dr) = cfg.samples := by
  refine ⟨Event.plotSaved (scatterMatrixPath cwd cfg) :: scatterTail cwd cfg dr,
    rfl, ?_, ?_⟩
  · intro pa c hmem
    rw [List.mem_cons] at hmem
    rcases hmem with h | h
    · exact absurd h (by simp)
    · unfold scatterTail at h
      split at h <;> simp at h
  · unfold pipelineFile
    rw [count_newline_writeFile, makeBlobs_points_length]

end Claims

end KMeansGen

